import Mathlib

/-!
Verification of the dataset / data-loader component of `vision-foundry`
(`src/include/data/data.hpp`): the abstract `Dataset` interface and the
`DataLoader` batching iterator, embedded shallowly and checked against the
design specification.

Modelling conventions:
* `size_t` values are `Nat`; the sizes involved never approach overflow.
* A C++ call that may throw (the virtual `Dataset::getItem`) is embedded as a
  function into `Option`: `none` is a thrown exception propagating to the
  caller.
* The randomness of `std::shuffle(indices_.begin(), indices_.end(), mt19937(random_device()()))`
  is nondeterministic; it is modelled by passing the shuffled list as an
  explicit parameter, constrained in theorem hypotheses to be a permutation
  of what was shuffled (which is exactly the guarantee `std::shuffle` gives).
-/

/-- Embedding of the `Dataset<SampleType>` abstract interface
(data.hpp:16-50): `getItem index` is the sample at `index`, `none` when the
concrete implementation throws (e.g. out-of-range); `size` is the item count,
fixed for the lifetime of the instance. -/
structure Dataset (α : Type) where
  getItem : Nat → Option α
  size : Nat

/-- A concrete in-memory dataset backed by a list, as in the test suite's
`IntDataset` (`getItem` is `data_.at(index)`, which throws — `none` — out of
range; `size` is `data_.size()`). -/
def listDataset {α : Type} (xs : List α) : Dataset α :=
  { getItem := fun i => xs[i]?
    size := xs.length }

/-- The dataset over `0..N-1` whose sample at index `i` is `i` itself; used
to speak about the sequence of *indices* a loader visits. -/
def idDataset (N : Nat) : Dataset Nat :=
  { getItem := fun i => if i < N then some i else none
    size := N }

/-- Embedding of the private state of `DataLoader<DatasetType>`
(data.hpp:61-68): the dataset reference, `batch_size_`, `shuffle_`,
`indices_` and `current_index_`. -/
@[ext]
structure DataLoader (α : Type) where
  dataset : Dataset α
  batch_size : Nat
  shuffle : Bool
  indices : List Nat
  current_index : Nat

/-- Embedding of the constructor `DataLoader::DataLoader` (data.hpp:81-92):
`indices_` is resized to `dataset.size()` and filled by `std::iota` with
`0, 1, ..., size-1` (that is `List.range ds.size`); when `shuffle` is set,
`std::shuffle` permutes it — the nondeterministic result is the parameter
`shuffled`; `current_index_` starts at `0`.  Note the constructor performs no
validation of `batch_size`. -/
def DataLoader.construct {α : Type} (ds : Dataset α) (batch_size : Nat)
    (shuffle : Bool) (shuffled : List Nat) : DataLoader α :=
  { dataset := ds
    batch_size := batch_size
    shuffle := shuffle
    indices := if shuffle then shuffled else List.range ds.size
    current_index := 0 }

/-- Embedding of `DataLoader::hasNext` (data.hpp:99):
`current_index_ < indices_.size()`. -/
def DataLoader.hasNext {α : Type} (l : DataLoader α) : Bool :=
  decide (l.current_index < l.indices.length)

/-- Sequentially fetch the samples at the given indices, as the loop in
`nextBatch` does with `batch.push_back(dataset_.getItem(...))`: the first
throwing `getItem` aborts the whole computation (`none`). -/
def Dataset.getItems {α : Type} (ds : Dataset α) : List Nat → Option (List α)
  | [] => some []
  | i :: is => (ds.getItem i).bind fun a => (ds.getItems is).map fun as => a :: as

/-- `end_index` of `DataLoader::nextBatch` (data.hpp:112):
`std::min(current_index_ + batch_size_, indices_.size())`. -/
def DataLoader.batchEnd {α : Type} (l : DataLoader α) : Nat :=
  min (l.current_index + l.batch_size) l.indices.length

/-- The slice `indices_[current_index_], ..., indices_[end_index - 1]` read
by the loop of `nextBatch` (data.hpp:113-115). -/
def DataLoader.plannedIndices {α : Type} (l : DataLoader α) : List Nat :=
  (l.indices.drop l.current_index).take (l.batchEnd - l.current_index)

/-- Embedding of `DataLoader::nextBatch` (data.hpp:110-118): fetch the
samples at `indices_[current_index_ .. end_index)`, then set
`current_index_ = end_index`.  An exception thrown by `getItem` inside the
loop propagates (`none`) before the assignment to `current_index_` runs, so
on failure no state change escapes. -/
def DataLoader.nextBatch {α : Type} (l : DataLoader α) :
    Option (List α × DataLoader α) :=
  match l.dataset.getItems l.plannedIndices with
  | some batch => some (batch, { l with current_index := l.batchEnd })
  | none => none

/-- Embedding of `DataLoader::reset` (data.hpp:126-132): `current_index_ = 0`
and, when `shuffle_`, `std::shuffle` re-permutes `indices_` in place (its
nondeterministic result is the parameter `shuffled`). -/
def DataLoader.reset {α : Type} (l : DataLoader α) (shuffled : List Nat) :
    DataLoader α :=
  if l.shuffle then { l with current_index := 0, indices := shuffled }
  else { l with current_index := 0 }

/-- One full epoch driven the way the spec and the tests drive it: repeated
`nextBatch()` calls while `hasNext()` is true, collecting the batches in
order.  `fuel` bounds the number of calls (the harness proves any
`fuel ≥ size` suffices when `batch_size ≥ 1`); `none` means either fuel ran
out or some `nextBatch` call failed. -/
def DataLoader.runEpoch {α : Type} : DataLoader α → Nat → Option (List (List α))
  | l, 0 => if l.hasNext then none else some []
  | l, fuel + 1 =>
    if l.hasNext then
      match l.nextBatch with
      | some (b, l2) => (l2.runEpoch fuel).map fun bs => b :: bs
      | none => none
    else some []

/-- The list of batch lengths produced by slicing `n` remaining items into
chunks of `B`: `min B n` first, then the lengths for the `B` fewer remaining
items.  (For `B = 0` the value is irrelevant to the development; the
recursion is still well-founded because the argument shrinks by at least
the successor step.) -/
def chunkLens (B : Nat) : Nat → List Nat
  | 0 => []
  | n + 1 => min B (n + 1) :: chunkLens B (n - (B - 1))

/-- The `DataLoader` states reachable from a construction over the dataset
`ds` by any sequence of `nextBatch` and `reset` calls (`hasNext` is `const`
and mutates nothing).  The lists fed to the two `std::shuffle` call sites are
constrained exactly as the C++ standard guarantees: a permutation of the
sequence being shuffled. -/
inductive Reachable {α : Type} (ds : Dataset α) : DataLoader α → Prop
  | construct (B : Nat) (sh : Bool) (shuffled : List Nat)
      (hp : shuffled.Perm (List.range ds.size)) :
      Reachable ds (DataLoader.construct ds B sh shuffled)
  | next (l : DataLoader α) (b : List α) (l2 : DataLoader α)
      (hr : Reachable ds l) (hs : l.nextBatch = some (b, l2)) :
      Reachable ds l2
  | reset (l : DataLoader α) (shuffled : List Nat)
      (hp : shuffled.Perm l.indices) (hr : Reachable ds l) :
      Reachable ds (l.reset shuffled)

/-- States reachable from `l0` using only successful `nextBatch` calls
(the steps of a single epoch). -/
inductive NextReach {α : Type} : DataLoader α → DataLoader α → Prop
  | refl (l : DataLoader α) : NextReach l l
  | step (l1 : DataLoader α) (b : List α) (l2 l3 : DataLoader α)
      (h12 : NextReach l1 l2) (h23 : l2.nextBatch = some (b, l3)) :
      NextReach l1 l3

/-! ### Helper lemmas about `Dataset.getItems` -/

theorem Dataset.getItems_nil {α : Type} (ds : Dataset α) :
    ds.getItems [] = some [] := rfl

theorem Dataset.getItems_cons {α : Type} (ds : Dataset α) (i : Nat) (is : List Nat) :
    ds.getItems (i :: is) =
      (ds.getItem i).bind fun a => (ds.getItems is).map fun as => a :: as := rfl

theorem Dataset.getItems_of_forall_isSome {α : Type} (ds : Dataset α) :
    ∀ (is : List Nat), (∀ i ∈ is, (ds.getItem i).isSome) →
      ∃ ys, ds.getItems is = some ys
  | [], _ => ⟨[], rfl⟩
  | i :: is, h => by
    obtain ⟨a, ha⟩ := Option.isSome_iff_exists.mp (h i (List.mem_cons_self i is))
    obtain ⟨ys, hys⟩ :=
      Dataset.getItems_of_forall_isSome ds is (fun j hj => h j (List.mem_cons_of_mem i hj))
    exact ⟨a :: ys, by rw [Dataset.getItems_cons, ha, hys]; rfl⟩

theorem Dataset.length_of_getItems {α : Type} (ds : Dataset α) :
    ∀ (is : List Nat) (ys : List α), ds.getItems is = some ys →
      ys.length = is.length
  | [], ys, h => by
    rw [Dataset.getItems_nil] at h
    cases h
    rfl
  | i :: is, ys, h => by
    rw [Dataset.getItems_cons] at h
    cases ha : ds.getItem i with
    | none => rw [ha] at h; cases h
    | some a =>
      rw [ha] at h
      cases hzs : ds.getItems is with
      | none => rw [hzs] at h; cases h
      | some zs =>
        rw [hzs] at h
        cases h
        simp [Dataset.length_of_getItems ds is zs hzs]

theorem Dataset.isSome_of_getItems {α : Type} (ds : Dataset α) :
    ∀ (is : List Nat) (ys : List α), ds.getItems is = some ys →
      ∀ i ∈ is, (ds.getItem i).isSome
  | [], _, _ => by simp
  | i :: is, ys, h => by
    rw [Dataset.getItems_cons] at h
    cases ha : ds.getItem i with
    | none => rw [ha] at h; cases h
    | some a =>
      rw [ha] at h
      cases hzs : ds.getItems is with
      | none => rw [hzs] at h; cases h
      | some zs =>
        intro j hj
        rcases List.mem_cons.mp hj with rfl | hj
        · simp [ha]
        · exact Dataset.isSome_of_getItems ds is zs hzs j hj

theorem Dataset.getItems_append {α : Type} (ds : Dataset α) :
    ∀ (is js : List Nat),
      ds.getItems (is ++ js) =
        (ds.getItems is).bind fun as => (ds.getItems js).map fun bs => as ++ bs
  | [], js => by
    rw [List.nil_append, Dataset.getItems_nil]
    cases h : ds.getItems js <;> simp
  | i :: is, js => by
    rw [List.cons_append, Dataset.getItems_cons, Dataset.getItems_cons,
        Dataset.getItems_append ds is js]
    cases ds.getItem i with
    | none => rfl
    | some a =>
      cases ds.getItems is with
      | none => rfl
      | some as =>
        cases ds.getItems js with
        | none => rfl
        | some bs => simp

/-! ### Helper lemmas about `nextBatch` -/

theorem DataLoader.nextBatch_of_getItems_some {α : Type} (l : DataLoader α)
    (batch : List α) (h : l.dataset.getItems l.plannedIndices = some batch) :
    l.nextBatch = some (batch, { l with current_index := l.batchEnd }) := by
  unfold DataLoader.nextBatch
  rw [h]

theorem DataLoader.nextBatch_of_getItems_none {α : Type} (l : DataLoader α)
    (h : l.dataset.getItems l.plannedIndices = none) :
    l.nextBatch = none := by
  unfold DataLoader.nextBatch
  rw [h]

theorem DataLoader.batchEnd_le {α : Type} (l : DataLoader α) :
    l.batchEnd ≤ l.indices.length :=
  Nat.min_le_right _ _

theorem DataLoader.length_plannedIndices {α : Type} (l : DataLoader α) :
    l.plannedIndices.length = l.batchEnd - l.current_index := by
  have h := l.batchEnd_le
  simp only [DataLoader.plannedIndices, List.length_take, List.length_drop]
  omega

theorem DataLoader.nextBatch_some_inv {α : Type} (l : DataLoader α)
    (b : List α) (l2 : DataLoader α) (h : l.nextBatch = some (b, l2)) :
    l2 = { l with current_index := l.batchEnd } ∧
      l.dataset.getItems l.plannedIndices = some b := by
  unfold DataLoader.nextBatch at h
  cases hg : l.dataset.getItems l.plannedIndices with
  | none => rw [hg] at h; cases h
  | some batch =>
    rw [hg] at h
    cases h
    exact ⟨rfl, rfl⟩

theorem DataLoader.nextBatch_of_batchEnd_eq {α : Type} (l : DataLoader α)
    (h : l.batchEnd = l.current_index) : l.nextBatch = some ([], l) := by
  have hp : l.plannedIndices = [] := by
    simp [DataLoader.plannedIndices, h]
  rw [DataLoader.nextBatch_of_getItems_some l [] (by rw [hp]; rfl), h]

/-! ### Helper lemmas about `chunkLens` -/

theorem chunkLens_sum (B : Nat) (hB : 1 ≤ B) :
    ∀ n : Nat, (chunkLens B n).sum = n := by
  intro n
  induction n using Nat.strong_induction_on with
  | _ n ih =>
    match n with
    | 0 => simp [chunkLens]
    | m + 1 =>
      have h2 := ih (m - (B - 1)) (by omega)
      simp only [chunkLens, List.sum_cons, h2]
      omega

theorem chunkLens_ne_nil (B : Nat) (n : Nat) (hn : 1 ≤ n) :
    chunkLens B n ≠ [] := by
  match n with
  | m + 1 => simp [chunkLens]

theorem chunkLens_dropLast (B : Nat) (hB : 1 ≤ B) :
    ∀ n : Nat, ∀ x ∈ (chunkLens B n).dropLast, x = B := by
  intro n
  induction n using Nat.strong_induction_on with
  | _ n ih =>
    match n with
    | 0 => simp [chunkLens]
    | m + 1 =>
      intro x hx
      rw [chunkLens] at hx
      by_cases h0 : m - (B - 1) = 0
      · rw [h0] at hx
        simp [chunkLens] at hx
      · obtain ⟨y, ys, hys⟩ : ∃ y ys, chunkLens B (m - (B - 1)) = y :: ys := by
          match hc : chunkLens B (m - (B - 1)) with
          | [] => exact absurd hc (chunkLens_ne_nil B _ (by omega))
          | y :: ys => exact ⟨y, ys, rfl⟩
        rw [hys, List.dropLast_cons₂, List.mem_cons] at hx
        rcases hx with rfl | hx
        · omega
        · exact ih (m - (B - 1)) (by omega) x (by rw [hys]; exact hx)

theorem chunkLens_getLast (B : Nat) (hB : 1 ≤ B) :
    ∀ n : Nat, 1 ≤ n →
      (chunkLens B n).getLast? = some (if n % B = 0 then B else n % B) := by
  intro n
  induction n using Nat.strong_induction_on with
  | _ n ih =>
    match n with
    | 0 => intro h; exact absurd h (by omega)
    | m + 1 =>
      intro _
      rw [chunkLens]
      by_cases h0 : m - (B - 1) = 0
      · rw [h0]
        simp only [chunkLens, List.getLast?_singleton]
        by_cases hle : m + 1 < B
        · rw [Nat.mod_eq_of_lt hle]
          have hne : ¬ (m + 1 = 0) := by omega
          simp only [hne, if_false]
          have hmin : min B (m + 1) = m + 1 := by omega
          rw [hmin]
        · have hBm : B = m + 1 := by omega
          rw [hBm]
          simp
      · obtain ⟨y, ys, hys⟩ : ∃ y ys, chunkLens B (m - (B - 1)) = y :: ys := by
          match hc : chunkLens B (m - (B - 1)) with
          | [] => exact absurd hc (chunkLens_ne_nil B _ (by omega))
          | y :: ys => exact ⟨y, ys, rfl⟩
        rw [hys, List.getLast?_cons_cons, ← hys,
            ih (m - (B - 1)) (by omega) (by omega)]
        have hmod : (m - (B - 1)) % B = (m + 1) % B := by
          have hsplit : m + 1 = (m - (B - 1)) + B := by omega
          rw [hsplit, Nat.add_mod_right]
        rw [hmod]

/-! ### The main epoch lemma -/

theorem DataLoader.runEpoch_exhausted {α : Type} (l : DataLoader α)
    (h : ¬ l.current_index < l.indices.length) (fuel : Nat) :
    l.runEpoch fuel = some [] := by
  have ht : l.hasNext = false := by
    simp only [DataLoader.hasNext, decide_eq_false_iff_not]
    exact h
  cases fuel <;> simp [DataLoader.runEpoch, ht]

theorem DataLoader.runEpoch_spec {α : Type} :
    ∀ (fuel : Nat) (l : DataLoader α),
      1 ≤ l.batch_size →
      (∀ i ∈ l.indices, (l.dataset.getItem i).isSome) →
      l.indices.length - l.current_index ≤ fuel →
      ∃ bs, l.runEpoch fuel = some bs ∧
        bs.map List.length = chunkLens l.batch_size (l.indices.length - l.current_index) ∧
        l.dataset.getItems (l.indices.drop l.current_index) = some bs.flatten := by
  intro fuel
  induction fuel with
  | zero =>
    intro l hB hsome hfuel
    have hc : ¬ l.current_index < l.indices.length := by omega
    have h0 : l.indices.length - l.current_index = 0 := by omega
    have hdrop : l.indices.drop l.current_index = [] := by
      rw [List.drop_eq_nil_iff]
      omega
    exact ⟨[], l.runEpoch_exhausted hc 0, by rw [h0]; simp [chunkLens],
      by rw [hdrop]; rfl⟩
  | succ fuel ih =>
    intro l hB hsome hfuel
    by_cases hc : l.current_index < l.indices.length
    · have hend_gt : l.current_index < l.batchEnd := by
        simp only [DataLoader.batchEnd]
        omega
      have hend_le : l.batchEnd ≤ l.indices.length := l.batchEnd_le
      have hplan : ∀ i ∈ l.plannedIndices, (l.dataset.getItem i).isSome := by
        intro i hi
        exact hsome i (List.mem_of_mem_drop (List.mem_of_mem_take hi))
      obtain ⟨batch, hbatch⟩ := l.dataset.getItems_of_forall_isSome _ hplan
      have hnb := l.nextBatch_of_getItems_some batch hbatch
      have hblen : batch.length = l.batchEnd - l.current_index := by
        rw [l.dataset.length_of_getItems _ _ hbatch, l.length_plannedIndices]
      obtain ⟨bs, hbs, hlens, hflat⟩ :=
        ih { l with current_index := l.batchEnd } hB hsome
          (by
            show l.indices.length - l.batchEnd ≤ fuel
            omega)
      have hlens2 : bs.map List.length =
          chunkLens l.batch_size (l.indices.length - l.batchEnd) := hlens
      have hflat2 : l.dataset.getItems (l.indices.drop l.batchEnd) =
          some bs.flatten := hflat
      refine ⟨batch :: bs, ?_, ?_, ?_⟩
      · have ht : l.hasNext = true := by
          simp only [DataLoader.hasNext, decide_eq_true_eq]
          exact hc
        simp [DataLoader.runEpoch, ht, hnb, hbs]
      · obtain ⟨m, hm⟩ : ∃ m, l.indices.length - l.current_index = m + 1 :=
          ⟨l.indices.length - l.current_index - 1, by omega⟩
        rw [List.map_cons, hm, chunkLens, hblen]
        have h1 : l.batchEnd - l.current_index = min l.batch_size (m + 1) := by
          simp only [DataLoader.batchEnd]
          omega
        have h2 : l.indices.length - l.batchEnd = m - (l.batch_size - 1) := by
          simp only [DataLoader.batchEnd]
          omega
        rw [h1, ← h2, hlens2]
      · have hck : l.current_index + (l.batchEnd - l.current_index) = l.batchEnd := by
          simp only [DataLoader.batchEnd]
          omega
        have haux : List.drop l.batchEnd l.indices =
            List.drop (l.batchEnd - l.current_index) (List.drop l.current_index l.indices) := by
          rw [List.drop_drop]
          congr 1
          omega
        have hsplit : l.indices.drop l.current_index =
            l.plannedIndices ++ l.indices.drop l.batchEnd := by
          unfold DataLoader.plannedIndices
          rw [haux, List.take_append_drop]
        rw [hsplit, Dataset.getItems_append, hbatch, hflat2]
        simp
    · have h0 : l.indices.length - l.current_index = 0 := by omega
      have hdrop : l.indices.drop l.current_index = [] := by
        rw [List.drop_eq_nil_iff]
        omega
      exact ⟨[], l.runEpoch_exhausted hc _, by rw [h0]; simp [chunkLens],
        by rw [hdrop]; rfl⟩

/-! ### Reachability invariants -/

theorem DataLoader.reachable_inv {α : Type} (ds : Dataset α) (l : DataLoader α)
    (h : Reachable ds l) :
    l.indices.Perm (List.range ds.size) ∧ l.current_index ≤ l.indices.length := by
  induction h with
  | construct B sh shuffled hp =>
    refine ⟨?_, Nat.zero_le _⟩
    show (if sh then shuffled else List.range ds.size).Perm (List.range ds.size)
    cases sh
    · exact List.Perm.refl _
    · simpa using hp
  | next l b l2 hr hs ih =>
    obtain ⟨heq, _⟩ := l.nextBatch_some_inv b l2 hs
    rw [heq]
    exact ⟨ih.1, l.batchEnd_le⟩
  | reset l shuffled hp hr ih =>
    unfold DataLoader.reset
    by_cases hsh : l.shuffle
    · rw [if_pos hsh]
      exact ⟨hp.trans ih.1, Nat.zero_le _⟩
    · rw [if_neg hsh]
      exact ⟨ih.1, Nat.zero_le _⟩

theorem NextReach.fields_eq {α : Type} (l0 l : DataLoader α) (h : NextReach l0 l) :
    l.dataset = l0.dataset ∧ l.batch_size = l0.batch_size ∧
      l.shuffle = l0.shuffle ∧ l.indices = l0.indices := by
  induction h with
  | refl => exact ⟨rfl, rfl, rfl, rfl⟩
  | step b l2 l3 h12 h23 ih =>
    obtain ⟨heq, _⟩ := l2.nextBatch_some_inv b l3 h23
    rw [heq]
    exact ih

/-- Fetching every index of `idDataset N` succeeds and returns the indices
themselves. -/
theorem idDataset_getItems :
    ∀ (N : Nat) (is : List Nat), (∀ i ∈ is, i < N) →
      (idDataset N).getItems is = some is
  | _, [], _ => rfl
  | N, i :: is, h => by
    have hi : i < N := h i (List.mem_cons_self i is)
    rw [Dataset.getItems_cons,
      idDataset_getItems N is (fun j hj => h j (List.mem_cons_of_mem i hj))]
    simp [idDataset, hi]

/-! ### The claims -/

/-- Claim C1: with `shuffleEnabled = true` and `batchSize = B ≥ 1`, the
epoch of repeated `nextBatch()` calls from construction until `hasNext()`
is false succeeds, and its concatenation is exactly the samples at the
shuffled index order — every dataset index `0..N-1` is visited exactly
once, with nothing dropped or duplicated by partial-batch truncation.
Instantiated at the index-transparent dataset `idDataset`, the concatenated
index sequence is literally a permutation of `0..N-1`.  (`shuffled` is the
nondeterministic output of `std::shuffle` on `0..N-1`, hence a permutation
of `List.range N`.) -/
theorem C1_shuffled_epoch_is_permutation {α : Type} (ds : Dataset α) (B : Nat)
    (shuffled : List Nat) (hB : 1 ≤ B)
    (hperm : shuffled.Perm (List.range ds.size))
    (hds : ∀ i, i < ds.size → (ds.getItem i).isSome) :
    (∃ bs, (DataLoader.construct ds B true shuffled).runEpoch ds.size = some bs ∧
        ds.getItems shuffled = some bs.flatten) ∧
    (∃ ibs, (DataLoader.construct (idDataset ds.size) B true shuffled).runEpoch
        ds.size = some ibs ∧ ibs.flatten.Perm (List.range ds.size)) := by
  have hlen : shuffled.length = ds.size := by
    rw [hperm.length_eq, List.length_range]
  have hmem : ∀ i ∈ shuffled, i < ds.size := fun i hi =>
    List.mem_range.mp (hperm.mem_iff.mp hi)
  constructor
  · obtain ⟨bs, h1, _, h3⟩ := DataLoader.runEpoch_spec ds.size
      (DataLoader.construct ds B true shuffled) hB
      (fun i hi => hds i (hmem i hi))
      (by show shuffled.length - 0 ≤ ds.size; omega)
    exact ⟨bs, h1, h3⟩
  · obtain ⟨ibs, h1, _, h3⟩ := DataLoader.runEpoch_spec ds.size
      (DataLoader.construct (idDataset ds.size) B true shuffled) hB
      (fun i hi => by
        have : i < ds.size := hmem i hi
        show ((idDataset ds.size).getItem i).isSome = true
        simp [idDataset, this])
      (by show shuffled.length - 0 ≤ ds.size; omega)
    have h3' : (idDataset ds.size).getItems shuffled = some ibs.flatten := h3
    rw [idDataset_getItems ds.size shuffled hmem] at h3'
    have : shuffled = ibs.flatten := Option.some_inj.mp h3'
    exact ⟨ibs, h1, this ▸ hperm⟩

/-- Claim C2: with `shuffleEnabled = false` and `batchSize = B ≥ 1`, the
concatenation of the batches of one full epoch equals the samples in
natural index order `0..N-1`; in particular for the dataset
`[10,11,12,13,14]` with `batchSize = 2` the successive `nextBatch()` calls
return `[10,11]`, `[12,13]`, `[14]`, after which `hasNext()` is false. -/
theorem C2_noshuffle_epoch_natural_order {α : Type} (ds : Dataset α) (B : Nat)
    (shuffled : List Nat) (items : List α) (hB : 1 ≤ B)
    (hitems : ds.getItems (List.range ds.size) = some items) :
    (∃ bs, (DataLoader.construct ds B false shuffled).runEpoch ds.size = some bs ∧
        bs.flatten = items) ∧
    (∃ l1 l2 l3 : DataLoader Nat,
      (DataLoader.construct (listDataset [10, 11, 12, 13, 14]) 2 false []).hasNext
          = true ∧
      (DataLoader.construct (listDataset [10, 11, 12, 13, 14]) 2 false []).nextBatch
          = some ([10, 11], l1) ∧
      l1.hasNext = true ∧ l1.nextBatch = some ([12, 13], l2) ∧
      l2.hasNext = true ∧ l2.nextBatch = some ([14], l3) ∧
      l3.hasNext = false) := by
  constructor
  · have hsome : ∀ i ∈ List.range ds.size, (ds.getItem i).isSome :=
      ds.isSome_of_getItems _ _ hitems
    obtain ⟨bs, h1, _, h3⟩ := DataLoader.runEpoch_spec ds.size
      (DataLoader.construct ds B false shuffled) hB
      (fun i hi => hsome i hi)
      (by show (List.range ds.size).length - 0 ≤ ds.size; simp)
    have h3' : ds.getItems (List.range ds.size) = some bs.flatten := h3
    rw [hitems] at h3'
    exact ⟨bs, h1, (Option.some_inj.mp h3').symm⟩
  · refine ⟨{ DataLoader.construct (listDataset [10, 11, 12, 13, 14]) 2 false []
        with current_index := 2 },
      { DataLoader.construct (listDataset [10, 11, 12, 13, 14]) 2 false []
        with current_index := 4 },
      { DataLoader.construct (listDataset [10, 11, 12, 13, 14]) 2 false []
        with current_index := 5 },
      rfl, rfl, rfl, rfl, rfl, rfl, rfl⟩

/-- Claim C3: for any dataset of size `N`, any `batchSize = B ≥ 1`, and
either shuffle setting, the full non-reset epoch succeeds; the batch lengths
sum to `N`, every batch except possibly the last has length exactly `B`, and
the last (when it exists) has length `N mod B`, or `B` when `B` divides `N`. -/
theorem C3_batch_length_distribution {α : Type} (ds : Dataset α) (B : Nat)
    (sh : Bool) (shuffled : List Nat) (hB : 1 ≤ B)
    (hperm : shuffled.Perm (List.range ds.size))
    (hds : ∀ i, i < ds.size → (ds.getItem i).isSome) :
    ∃ bs, (DataLoader.construct ds B sh shuffled).runEpoch ds.size = some bs ∧
      (bs.map List.length).sum = ds.size ∧
      (∀ b ∈ bs.dropLast, b.length = B) ∧
      (∀ last, bs.getLast? = some last →
        last.length = if ds.size % B = 0 then B else ds.size % B) := by
  have hip : (DataLoader.construct ds B sh shuffled).indices.Perm
      (List.range ds.size) := by
    show (if sh then shuffled else List.range ds.size).Perm (List.range ds.size)
    cases sh
    · exact List.Perm.refl _
    · simpa using hperm
  have hlen : (DataLoader.construct ds B sh shuffled).indices.length = ds.size := by
    rw [hip.length_eq, List.length_range]
  obtain ⟨bs, h1, h2, _⟩ := DataLoader.runEpoch_spec ds.size
    (DataLoader.construct ds B sh shuffled) hB
    (fun i hi => hds i (List.mem_range.mp (hip.mem_iff.mp hi)))
    (by omega)
  have h2' : bs.map List.length = chunkLens B ds.size := by
    have h2c : bs.map List.length =
        chunkLens B ((DataLoader.construct ds B sh shuffled).indices.length - 0) :=
      h2
    rw [hlen] at h2c
    simpa using h2c
  refine ⟨bs, h1, ?_, ?_, ?_⟩
  · rw [h2', chunkLens_sum B hB]
  · intro b hb
    have hmem : b.length ∈ (bs.map List.length).dropLast := by
      rw [← List.map_dropLast]
      exact List.mem_map_of_mem List.length hb
    rw [h2'] at hmem
    exact chunkLens_dropLast B hB ds.size _ hmem
  · intro last hlast
    by_cases hN : ds.size = 0
    · exfalso
      rw [hN] at h2'
      have : bs = [] := by
        have := h2'
        simp [chunkLens] at this
        exact this
      rw [this] at hlast
      cases hlast
    · have hgl : (bs.map List.length).getLast? = some last.length := by
        rw [List.getLast?_map, hlast]
        rfl
      rw [h2', chunkLens_getLast B hB ds.size (by omega)] at hgl
      exact (Option.some_inj.mp hgl).symm

/-- Claim C4: every loader reachable by any sequence of construct,
`hasNext`, `nextBatch` and `reset` operations keeps `indices_` a permutation
of exactly `0..size-1` (whatever the shuffle flag), keeps the cursor within
`0 ≤ current_index_ ≤ size`, and is exhausted (`hasNext()` false) exactly
when `current_index_ = size`. -/
theorem C4_reachable_invariant {α : Type} (ds : Dataset α) (l : DataLoader α)
    (h : Reachable ds l) :
    l.indices.Perm (List.range ds.size) ∧ l.current_index ≤ ds.size ∧
      (l.hasNext = false ↔ l.current_index = ds.size) := by
  obtain ⟨h1, h2⟩ := DataLoader.reachable_inv ds l h
  have hL : l.indices.length = ds.size := by
    rw [h1.length_eq, List.length_range]
  refine ⟨h1, by omega, ?_⟩
  simp only [DataLoader.hasNext, decide_eq_false_iff_not, Nat.not_lt]
  omega

theorem C4_witness :
    (DataLoader.construct (listDataset ([5, 6] : List Nat)) 1 false [1, 0]).indices.Perm
        (List.range (listDataset ([5, 6] : List Nat)).size) ∧
      (DataLoader.construct (listDataset ([5, 6] : List Nat)) 1 false [1, 0]).current_index ≤
        (listDataset ([5, 6] : List Nat)).size ∧
      ((DataLoader.construct (listDataset ([5, 6] : List Nat)) 1 false [1, 0]).hasNext = false ↔
        (DataLoader.construct (listDataset ([5, 6] : List Nat)) 1 false [1, 0]).current_index =
          (listDataset ([5, 6] : List Nat)).size) :=
  C4_reachable_invariant (listDataset ([5, 6] : List Nat))
    (DataLoader.construct (listDataset ([5, 6] : List Nat)) 1 false [1, 0])
    (Reachable.construct 1 false [1, 0] (by decide))

/-- Claim C5 is false of the code: the constructor (data.hpp:81-92) performs
no validation of `batch_size`, so construction with `batchSize = 0 < 1`
succeeds — no invalid-configuration error exists anywhere in the class — and
the resulting loader is usable but incorrect: on a nonempty dataset it
reports `hasNext() = true` while its `nextBatch()` succeeds with an empty
batch and unchanged state. -/
theorem C5_counterexample :
    (DataLoader.construct (listDataset ([1, 2, 3] : List Nat)) 0 false []).hasNext
        = true ∧
    (DataLoader.construct (listDataset ([1, 2, 3] : List Nat)) 0 false []).nextBatch
        = some ([], DataLoader.construct (listDataset ([1, 2, 3] : List Nat)) 0 false []) :=
  ⟨rfl, rfl⟩

/-- Claim C5 (amended): construction never validates `batchSize`:
`batchSize = 0` is accepted without any error, and the loader so obtained
has a `nextBatch()` that succeeds, returns an empty batch and leaves the
state unchanged — with a nonempty dataset the iterator is usable but never
makes progress. -/
theorem C5_amended_no_validation {α : Type} (ds : Dataset α) (sh : Bool)
    (shuffled : List Nat) :
    (DataLoader.construct ds 0 sh shuffled).nextBatch =
      some ([], DataLoader.construct ds 0 sh shuffled) := by
  apply DataLoader.nextBatch_of_batchEnd_eq
  show min (0 + 0) (DataLoader.construct ds 0 sh shuffled).indices.length = 0
  omega

/-- Claim C6 is false of the code: on an exhausted loader (here: over the
empty dataset, `hasNext()` false from construction), `nextBatch()` does not
fail — it succeeds and returns an empty batch, leaving the state
unchanged. -/
theorem C6_counterexample :
    (DataLoader.construct (listDataset ([] : List Nat)) 1 false []).hasNext = false ∧
    (DataLoader.construct (listDataset ([] : List Nat)) 1 false []).nextBatch =
      some ([], DataLoader.construct (listDataset ([] : List Nat)) 1 false []) :=
  ⟨rfl, rfl⟩

/-- Claim C6 (amended): calling `nextBatch()` on an exhausted loader
(`hasNext()` false, cursor within bounds) does not raise an
exhausted-iterator error; it succeeds, returning an empty batch and leaving
the loader unchanged.  (data.hpp:110-118 has no guard: `end_index` clamps to
`indices_.size()`, the loop body never runs, and the cursor is rewritten to
its own value.) -/
theorem C6_amended_exhausted_returns_empty {α : Type} (l : DataLoader α)
    (h1 : l.hasNext = false) (h2 : l.current_index ≤ l.indices.length) :
    l.nextBatch = some ([], l) := by
  have hc : ¬ l.current_index < l.indices.length := by
    simpa [DataLoader.hasNext] using h1
  apply DataLoader.nextBatch_of_batchEnd_eq
  simp only [DataLoader.batchEnd]
  omega

theorem C6_witness :
    (DataLoader.construct (listDataset ([] : List Nat)) 2 false []).hasNext = false ∧
    (DataLoader.construct (listDataset ([] : List Nat)) 2 false []).nextBatch =
      some ([], DataLoader.construct (listDataset ([] : List Nat)) 2 false []) :=
  ⟨rfl, C6_amended_exhausted_returns_empty
    (DataLoader.construct (listDataset ([] : List Nat)) 2 false []) rfl (by decide)⟩

/-- Claim C7: whenever `min(current_index_ + batch_size_, indices_.size())`
equals `current_index_` (the exhausted case and the `batch_size_ = 0` case),
`nextBatch()` succeeds with an empty batch and returns the state unchanged —
so `hasNext()` is the same before and after, and with `batch_size_ = 0` on a
nonempty dataset no progress is ever made.  The second conjunct replaces the
dataset by one whose every `getItem` throws, and `nextBatch` still succeeds,
witnessing that no `dataset.getItem` call occurs. -/
theorem C7_empty_slice_is_noop {α : Type} (l : DataLoader α)
    (h : l.batchEnd = l.current_index) :
    l.nextBatch = some ([], l) ∧
    (DataLoader.mk { getItem := fun _ => (none : Option α), size := l.dataset.size }
        l.batch_size l.shuffle l.indices l.current_index).nextBatch =
      some ([], DataLoader.mk { getItem := fun _ => none, size := l.dataset.size }
        l.batch_size l.shuffle l.indices l.current_index) := by
  refine ⟨DataLoader.nextBatch_of_batchEnd_eq l h, ?_⟩
  exact DataLoader.nextBatch_of_batchEnd_eq _ h

theorem C7_witness :
    (DataLoader.construct (listDataset ([1, 2] : List Nat)) 0 false []).batchEnd =
      (DataLoader.construct (listDataset ([1, 2] : List Nat)) 0 false []).current_index ∧
    (DataLoader.construct (listDataset ([1, 2] : List Nat)) 0 false []).nextBatch =
      some ([], DataLoader.construct (listDataset ([1, 2] : List Nat)) 0 false []) :=
  ⟨rfl, (C7_empty_slice_is_noop
    (DataLoader.construct (listDataset ([1, 2] : List Nat)) 0 false []) rfl).1⟩

/-- Claim C8: with `shuffleEnabled = false`, iteration is deterministic and
independent of any random source: two separately constructed loaders over
the same dataset and batch size produce identical epochs (whatever lists the
unused random source would have produced), and a loader reset after any
number of `nextBatch` steps replays exactly the original epoch. -/
theorem C8_noshuffle_deterministic {α : Type} (ds : Dataset α) (B : Nat)
    (s1 s2 s3 : List Nat) (fuel : Nat) (l : DataLoader α)
    (h : NextReach (DataLoader.construct ds B false s1) l) :
    (DataLoader.construct ds B false s1).runEpoch fuel =
      (DataLoader.construct ds B false s2).runEpoch fuel ∧
    (l.reset s3).runEpoch fuel =
      (DataLoader.construct ds B false s1).runEpoch fuel := by
  have hc : DataLoader.construct ds B false s1 =
      DataLoader.construct ds B false s2 := rfl
  refine ⟨by rw [hc], ?_⟩
  obtain ⟨hd, hb, hsh, hi⟩ := NextReach.fields_eq _ _ h
  have hsh' : l.shuffle = false := hsh
  have hres : l.reset s3 = DataLoader.construct ds B false s1 := by
    unfold DataLoader.reset
    rw [if_neg (by simp [hsh'])]
    apply DataLoader.ext
    · exact hd
    · exact hb
    · exact hsh
    · exact hi
    · rfl
  rw [hres]

theorem C8_witness :
    ((DataLoader.construct (listDataset ([7, 8, 9] : List Nat)) 2 false []).runEpoch 3 =
      (DataLoader.construct (listDataset ([7, 8, 9] : List Nat)) 2 false
        [2, 1, 0]).runEpoch 3) ∧
    (((DataLoader.construct (listDataset ([7, 8, 9] : List Nat)) 2 false []).reset
        [0, 2, 1]).runEpoch 3 =
      (DataLoader.construct (listDataset ([7, 8, 9] : List Nat)) 2 false []).runEpoch 3) :=
  C8_noshuffle_deterministic (listDataset ([7, 8, 9] : List Nat)) 2 [] [2, 1, 0]
    [0, 2, 1] 3 (DataLoader.construct (listDataset ([7, 8, 9] : List Nat)) 2 false [])
    (NextReach.refl _)

/-- Claim C9: `reset()` zeroes the cursor — so `hasNext()` is true afterwards
exactly when the size is positive — leaves `indices_` unchanged when
`shuffle_` is false, and never touches `batch_size_`, `shuffle_` or the
dataset reference.  (The two hypotheses record the standing invariants that
`indices_` has the dataset's length and that `std::shuffle` preserves the
length of what it permutes.) -/
theorem C9_reset_frame {α : Type} (l : DataLoader α) (shuffled : List Nat)
    (hL : l.indices.length = l.dataset.size)
    (hsl : shuffled.length = l.indices.length) :
    (l.reset shuffled).current_index = 0 ∧
    ((l.reset shuffled).hasNext = true ↔ 0 < l.dataset.size) ∧
    (l.shuffle = false → (l.reset shuffled).indices = l.indices) ∧
    (l.reset shuffled).batch_size = l.batch_size ∧
    (l.reset shuffled).shuffle = l.shuffle ∧
    (l.reset shuffled).dataset = l.dataset := by
  unfold DataLoader.reset
  by_cases hsh : l.shuffle = true
  · rw [if_pos hsh]
    refine ⟨rfl, ?_, ?_, rfl, rfl, rfl⟩
    · show decide (0 < shuffled.length) = true ↔ 0 < l.dataset.size
      simp only [decide_eq_true_eq]
      omega
    · intro hf
      rw [hsh] at hf
      cases hf
  · rw [if_neg hsh]
    refine ⟨rfl, ?_, fun _ => rfl, rfl, rfl, rfl⟩
    show decide (0 < l.indices.length) = true ↔ 0 < l.dataset.size
    simp only [decide_eq_true_eq]
    omega

theorem C9_witness :
    ((DataLoader.construct (listDataset ([1, 2] : List Nat)) 1 false []).reset
        [1, 0]).current_index = 0 ∧
    (((DataLoader.construct (listDataset ([1, 2] : List Nat)) 1 false []).reset
        [1, 0]).hasNext = true ↔
      0 < (DataLoader.construct (listDataset ([1, 2] : List Nat)) 1 false
        []).dataset.size) ∧
    ((DataLoader.construct (listDataset ([1, 2] : List Nat)) 1 false []).shuffle
        = false →
      ((DataLoader.construct (listDataset ([1, 2] : List Nat)) 1 false []).reset
          [1, 0]).indices =
        (DataLoader.construct (listDataset ([1, 2] : List Nat)) 1 false []).indices) ∧
    ((DataLoader.construct (listDataset ([1, 2] : List Nat)) 1 false []).reset
        [1, 0]).batch_size =
      (DataLoader.construct (listDataset ([1, 2] : List Nat)) 1 false []).batch_size ∧
    ((DataLoader.construct (listDataset ([1, 2] : List Nat)) 1 false []).reset
        [1, 0]).shuffle =
      (DataLoader.construct (listDataset ([1, 2] : List Nat)) 1 false []).shuffle ∧
    ((DataLoader.construct (listDataset ([1, 2] : List Nat)) 1 false []).reset
        [1, 0]).dataset =
      (DataLoader.construct (listDataset ([1, 2] : List Nat)) 1 false []).dataset :=
  C9_reset_frame (DataLoader.construct (listDataset ([1, 2] : List Nat)) 1 false [])
    [1, 0] (by decide) (by decide)

/-- Claim C10: a single `nextBatch()` call is atomic: if every `getItem` on
the batch's planned indices succeeds, the full batch of length
`end_index - current_index_` is returned and the cursor advances to
`end_index`; if any `getItem` in the batch throws, the whole call fails
(`none`) — no shortened batch, and no successor state is produced, so the
loader is exactly as it was before the call. -/
theorem C10_nextBatch_atomic {α : Type} (l : DataLoader α) :
    (∀ batch, l.dataset.getItems l.plannedIndices = some batch →
      l.nextBatch = some (batch, { l with current_index := l.batchEnd }) ∧
        batch.length = l.batchEnd - l.current_index) ∧
    (l.dataset.getItems l.plannedIndices = none → l.nextBatch = none) := by
  constructor
  · intro batch hb
    refine ⟨l.nextBatch_of_getItems_some batch hb, ?_⟩
    rw [l.dataset.length_of_getItems _ _ hb, l.length_plannedIndices]
  · exact l.nextBatch_of_getItems_none

theorem C10_witness :
    (DataLoader.construct (listDataset ([10, 11, 12] : List Nat)) 2 false
        []).nextBatch =
      some ([10, 11],
        { DataLoader.construct (listDataset ([10, 11, 12] : List Nat)) 2 false []
          with current_index := 2 }) ∧
    (DataLoader.construct
        { getItem := fun _ => (none : Option Nat), size := 3 } 2 false []).nextBatch
      = none :=
  ⟨((C10_nextBatch_atomic
      (DataLoader.construct (listDataset ([10, 11, 12] : List Nat)) 2 false [])).1
      [10, 11] rfl).1,
    (C10_nextBatch_atomic
      (DataLoader.construct
        { getItem := fun _ => (none : Option Nat), size := 3 } 2 false [])).2 rfl⟩

theorem C1_witness :
    (∃ bs, (DataLoader.construct (listDataset ([4, 5, 6] : List Nat)) 2 true
        [2, 0, 1]).runEpoch (listDataset ([4, 5, 6] : List Nat)).size = some bs ∧
      (listDataset ([4, 5, 6] : List Nat)).getItems [2, 0, 1] = some bs.flatten) ∧
    (∃ ibs, (DataLoader.construct (idDataset (listDataset ([4, 5, 6] : List Nat)).size)
        2 true [2, 0, 1]).runEpoch (listDataset ([4, 5, 6] : List Nat)).size
        = some ibs ∧
      ibs.flatten.Perm (List.range (listDataset ([4, 5, 6] : List Nat)).size)) :=
  C1_shuffled_epoch_is_permutation (listDataset ([4, 5, 6] : List Nat)) 2 [2, 0, 1]
    (by decide) (by decide) (by decide)

theorem C2_witness :
    (∃ bs, (DataLoader.construct (listDataset ([3, 4] : List Nat)) 1 false
        []).runEpoch (listDataset ([3, 4] : List Nat)).size = some bs ∧
      bs.flatten = [3, 4]) ∧
    (∃ l1 l2 l3 : DataLoader Nat,
      (DataLoader.construct (listDataset [10, 11, 12, 13, 14]) 2 false []).hasNext
          = true ∧
      (DataLoader.construct (listDataset [10, 11, 12, 13, 14]) 2 false []).nextBatch
          = some ([10, 11], l1) ∧
      l1.hasNext = true ∧ l1.nextBatch = some ([12, 13], l2) ∧
      l2.hasNext = true ∧ l2.nextBatch = some ([14], l3) ∧
      l3.hasNext = false) :=
  C2_noshuffle_epoch_natural_order (listDataset ([3, 4] : List Nat)) 1 [] [3, 4]
    (by decide) rfl

theorem C3_witness :
    ∃ bs, (DataLoader.construct (listDataset ([1, 2, 3] : List Nat)) 2 true
        [1, 2, 0]).runEpoch (listDataset ([1, 2, 3] : List Nat)).size = some bs ∧
      (bs.map List.length).sum = (listDataset ([1, 2, 3] : List Nat)).size ∧
      (∀ b ∈ bs.dropLast, b.length = 2) ∧
      (∀ last, bs.getLast? = some last →
        last.length = if (listDataset ([1, 2, 3] : List Nat)).size % 2 = 0 then 2
          else (listDataset ([1, 2, 3] : List Nat)).size % 2) :=
  C3_batch_length_distribution (listDataset ([1, 2, 3] : List Nat)) 2 true [1, 2, 0]
    (by decide) (by decide) (by decide)
